import Mathlib

/-!
Verification development for the lead-scout repository.

The repository discovers candidate professional profiles by issuing
"X-Ray" search queries, parsing result titles/snippets into Lead records,
and persisting them with cross-run deduplication (executed-query ledger,
seen-URL set).

Strings are modelled as lists of characters (the `Str` abbreviation);
JavaScript string operations are modelled at the ASCII level
(String.prototype.toLowerCase is Char.toLower, which lower-cases ASCII
letters).  Regular-expression matching is modelled by compiling each
concrete regex of the source into continuation-passing matchers that
implement the ECMAScript backtracking semantics (greedy quantifiers try
the longest extension first, lazy quantifiers the shortest; alternatives
are tried left to right; an unanchored pattern is tried at each start
position from the left).  Wall-clock reads (new Date().toISOString())
are modelled by threading an explicit `now` argument.
-/

namespace LeadScout

/-- Strings are modelled as lists of characters. -/
abbrev Str := List Char

/-- Inject a Lean string literal into the model. -/
def strLit (s : String) : Str := s.data

/-- Model of String.prototype.toLowerCase at the ASCII level. -/
def lowerStr (s : Str) : Str := s.map Char.toLower

/-- Does `s` start with `k`?  (Model of a literal match at one position.) -/
def strStartsWith : Str → Str → Bool
  | _, [] => true
  | [], _ :: _ => false
  | c :: s, d :: k => c == d && strStartsWith s k

/-- Model of JavaScript String.prototype.includes: `sub` occurs somewhere in `s`. -/
def strIncludes : Str → Str → Bool
  | [], sub => sub.isEmpty
  | c :: rest, sub => strStartsWith (c :: rest) sub || strIncludes rest sub

/-- JavaScript word character, the \w class: [A-Za-z0-9_]. -/
def isWordChar (c : Char) : Bool :=
  (65 ≤ c.toNat && c.toNat ≤ 90) || (97 ≤ c.toNat && c.toNat ≤ 122) ||
  (48 ≤ c.toNat && c.toNat ≤ 57) || c == '_'

/-- Word-ness of an optional context character; out-of-string context is non-word. -/
def optWord : Option Char → Bool
  | none => false
  | some c => isWordChar c

/-- ECMAScript word boundary \b between a left and a right context character:
exactly one side is a word character. -/
def boundary (l r : Option Char) : Bool := optWord l != optWord r

/-- The character just before the current position, given the characters `l`
consumed since the previous known context `prev`. -/
def lastFrom (prev : Option Char) (l : Str) : Option Char :=
  match l.getLast? with
  | some c => some c
  | none => prev

/-- Does the regex \b k \b (with `k` a literal, as produced by escapeRegex)
match exactly at the current position?  `prev` is the character before the
position, `rest` the input from the position on. -/
def wbHere (k : Str) (prev : Option Char) (rest : Str) : Bool :=
  strStartsWith rest k && boundary prev rest.head? &&
    boundary (lastFrom prev k) (rest.drop k.length).head?

/-- Search for a \b k \b match at the current position or anywhere to the
right of it (ECMAScript unanchored matching, leftmost first). -/
def wbSearch (k : Str) (prev : Option Char) : Str → Bool
  | [] => wbHere k prev []
  | c :: rest => wbHere k prev (c :: rest) || wbSearch k (some c) rest

/-- Model of `new RegExp('\\b' + escapeRegex(k) + '\\b', 'i').test(s)` where
both `k` and `s` are already lower-cased (so the i flag is inert at the
ASCII level at which toLowerCase is modelled). -/
def regexTestWB (k s : Str) : Bool := wbSearch k none s

/-- findMatchedTopics of the capability-complete parser
(src/unnamed/part_001 lines 30-46, also src/src/cleanup-leads.ts lines
16-23): keep the topics whose lower-cased text occurs in the lower-cased
input delimited by word boundaries. -/
def findMatchedTopics (text : Str) (topics : List Str) : List Str :=
  let lowerText := lowerStr text
  topics.filter (fun topic => regexTestWB (lowerStr topic) lowerText)

/-- findMatchedTopics of the superseded simpler parser variant
(src/src/parser.ts lines 29-32, also src/unnamed/part_000 lines 12-15):
plain case-insensitive substring containment. -/
def findMatchedTopicsSubstr (text : Str) (topics : List Str) : List Str :=
  let lowerText := lowerStr text
  topics.filter (fun topic => strIncludes lowerText (lowerStr topic))

/-- Modelled from the spec: the keyword occurs in the text as a
case-insensitive whole word/phrase, i.e. some occurrence of the
lower-cased keyword in the lower-cased text is delimited by word
boundaries on both sides. -/
def occursWholeWord (keyword text : Str) : Prop :=
  ∃ pre suf, lowerStr text = pre ++ lowerStr keyword ++ suf
    ∧ boundary pre.getLast? ((lowerStr keyword ++ suf).head?) = true
    ∧ boundary ((pre ++ lowerStr keyword).getLast?) suf.head? = true

/-- ECMAScript whitespace class \s: space, tab, line terminators and the
Unicode space characters enumerated by the standard. -/
def wsChar (c : Char) : Bool :=
  c == ' ' || c == '\t' || c == '\n' || c.toNat == 11 || c.toNat == 12 || c == '\r' ||
  c.toNat == 0xa0 || c.toNat == 0x1680 || (0x2000 ≤ c.toNat && c.toNat ≤ 0x200a) ||
  c.toNat == 0x2028 || c.toNat == 0x2029 || c.toNat == 0x202f || c.toNat == 0x205f ||
  c.toNat == 0x3000 || c.toNat == 0xfeff

/-- ECMAScript dot (no s flag): any character except a line terminator. -/
def dotChar (c : Char) : Bool :=
  !(c == '\n' || c == '\r' || c.toNat == 0x2028 || c.toNat == 0x2029)

/-- Greedy star over a one-character class, continuation-passing with
backtracking: consume as many `p` characters as possible, on failure of the
continuation retry with fewer. -/
def starCls (p : Char → Bool) (k : Str → Option α) : Str → Option α
  | [] => k []
  | c :: rest =>
    if p c then
      match starCls p k rest with
      | some r => some r
      | none => k (c :: rest)
    else k (c :: rest)

/-- Lazy plus over a one-character class, accumulating the consumed
characters (the capture): try the shortest non-empty run first, extend on
failure of the continuation. -/
def plusLazyClsAux (p : Char → Bool) (k : Str → Str → Option α) (acc : Str) : Str → Option α
  | [] => none
  | c :: rest =>
    if p c then
      match k (acc ++ [c]) rest with
      | some r => some r
      | none => plusLazyClsAux p k (acc ++ [c]) rest
    else none

/-- Lazy plus over a one-character class, capture passed to the continuation. -/
def plusLazyCls (p : Char → Bool) (k : Str → Str → Option α) (s : Str) : Option α :=
  plusLazyClsAux p k [] s

/-- Greedy plus over a one-character class: one mandatory character, then a
greedy star. -/
def plusGreedyCls (p : Char → Bool) (k : Str → Option α) : Str → Option α
  | [] => none
  | c :: rest => if p c then starCls p k rest else none

/-- Case-insensitive literal test at the current position (the i flag at the
ASCII level). -/
def strStartsWithCI : Str → Str → Bool
  | _, [] => true
  | [], _ :: _ => false
  | c :: s, d :: k => Char.toLower c == Char.toLower d && strStartsWithCI s k

/-- The field separator of the title patterns: \s*-\s* followed by the
continuation. -/
def sepDash (k : Str → Option α) : Str → Option α :=
  starCls wsChar (fun r =>
    match r with
    | c :: r2 => if c == '-' then starCls wsChar k r2 else none
    | [] => none)

/-- The title tail \s*\|\s*LinkedIn$ (i flag on the brand literal),
followed by the continuation at the end of input. -/
def tailLinkedIn (k : Str → Option α) : Str → Option α :=
  starCls wsChar (fun r =>
    match r with
    | c :: r2 =>
      if c == '|' then
        starCls wsChar (fun r3 =>
          if strStartsWithCI r3 (strLit "LinkedIn") then
            match r3.drop 8 with
            | [] => k []
            | _ :: _ => none
          else none) r2
      else none
    | [] => none)

/-- PRIMARY_PATTERN of src/src/parser.ts line 4 (same in
src/unnamed/part_001): the regex (anchored, i flag)
matching Name - Role - Company | LinkedIn with three lazy dot-plus capture
groups; returns the captures. -/
def matchPrimary (title : Str) : Option (Str × Str × Str) :=
  plusLazyCls dotChar (fun g1 r1 =>
    sepDash (plusLazyCls dotChar (fun g2 r3 =>
      sepDash (plusLazyCls dotChar (fun g3 r5 =>
        tailLinkedIn (fun _ => some (g1, g2, g3)) r5)) r3)) r1) title

/-- FALLBACK_PATTERN of src/src/parser.ts line 7: the regex (anchored,
i flag) matching Name - Role | LinkedIn with two lazy dot-plus capture
groups; returns the captures. -/
def matchFallback (title : Str) : Option (Str × Str) :=
  plusLazyCls dotChar (fun g1 r1 =>
    sepDash (plusLazyCls dotChar (fun g2 r3 =>
      tailLinkedIn (fun _ => some (g1, g2)) r3)) r1) title

/-- State for collapsing whitespace runs: was the previous character part of
a whitespace run already replaced? -/
def collapseWsAux (prevWs : Bool) : Str → Str
  | [] => []
  | c :: rest =>
    if wsChar c then
      (if prevWs then collapseWsAux true rest else ' ' :: collapseWsAux true rest)
    else c :: collapseWsAux false rest

/-- replace(/\s+/g, ' '): every maximal whitespace run becomes one space. -/
def collapseWs (s : Str) : Str := collapseWsAux false s

/-- How many consecutive dots directly precede the current position. -/
inductive DotRun where
  | zero
  | one
  | many
deriving DecidableEq

/-- State machine for replace(/\.\{2,\}/g, ''): runs of two or more dots are
removed, single dots are kept. -/
def removeDotRunsAux (st : DotRun) : Str → Str
  | [] => (match st with | .one => ['.'] | _ => [])
  | c :: rest =>
    if c == '.' then
      match st with
      | .zero => removeDotRunsAux .one rest
      | _ => removeDotRunsAux .many rest
    else
      (match st with
       | .one => '.' :: c :: removeDotRunsAux .zero rest
       | _ => c :: removeDotRunsAux .zero rest)

/-- replace(/\.\{2,\}/g, ''): remove every run of two or more dots. -/
def removeDotRuns (s : Str) : Str := removeDotRunsAux .zero s

/-- replace(/^\s+|\s+$/g, '') and also String.prototype.trim: strip leading
and trailing whitespace. -/
def trimWs (s : Str) : Str := ((s.dropWhile wsChar).reverse.dropWhile wsChar).reverse

/-- cleanText of src/src/parser.ts lines 173-179: normalize whitespace,
remove dot runs, trim. -/
def cleanText (t : Str) : Str := trimWs (trimWs (removeDotRuns (collapseWs t)))

/-- detectTruncation of src/src/parser.ts lines 141-143: the title contains
a literal ellipsis. -/
def detectTruncation (title : Str) : Bool := strIncludes title (strLit "...")

/-- The class [A-Z]. -/
def upperAZ (c : Char) : Bool := 65 ≤ c.toNat && c.toNat ≤ 90

/-- The class [A-Z] under the i flag, i.e. any ASCII letter. -/
def letterAZ (c : Char) : Bool := upperAZ c || (97 ≤ c.toNat && c.toNat ≤ 122)

/-- The company-name class [A-Za-z0-9\s&.] of the snippet patterns. -/
def companyChar (c : Char) : Bool :=
  letterAZ c || (48 ≤ c.toNat && c.toNat ≤ 57) || wsChar c || c == '&' || c == '.'

/-- The punctuation class [·•|,.] terminating a company capture. -/
def midPunct (c : Char) : Bool := c == '·' || c == '•' || c == '|' || c == ',' || c == '.'

/-- The dash class [-–] terminating a company capture. -/
def dashPunct (c : Char) : Bool := c == '-' || c == '–'

/-- The capture terminator (?:\s*[·•|,.]|\s+[-–]|\s*$) of the three company
patterns: alternatives tried left to right. -/
def companyTermTest (s : Str) : Bool :=
  (starCls wsChar (fun r =>
    match r with
    | c :: _ => if midPunct c then some () else none
    | [] => none) s).isSome
  || (plusGreedyCls wsChar (fun r =>
    match r with
    | c :: _ => if dashPunct c then some () else none
    | [] => none) s).isSome
  || (starCls wsChar (fun r =>
    match r with
    | [] => some ()
    | _ :: _ => none) s).isSome

/-- The capture group of the company patterns: a first-class character, then
a lazy plus of company characters, then the terminator; returns the
captured characters. -/
def companyCapture (firstCls : Char → Bool) (s : Str) : Option Str :=
  match s with
  | c :: rest =>
    if firstCls c then
      plusLazyCls companyChar (fun cap r =>
        if companyTermTest r then some (c :: cap) else none) rest
    else none
  | [] => none

/-- Body of company pattern 1 after the (?:^|\s) guard: at\s+ then the
capture (case-sensitive). -/
def companyBody1 (s : Str) : Option Str :=
  if strStartsWith s (strLit "at") then
    plusGreedyCls wsChar (companyCapture upperAZ) (s.drop 2)
  else none

/-- Body of company pattern 2 after the (?:^|\s) guard: @\s* then the
capture. -/
def companyBody2 (s : Str) : Option Str :=
  match s with
  | c :: rest => if c == '@' then starCls wsChar (companyCapture upperAZ) rest else none
  | [] => none

/-- Company pattern 3 (i flag, unguarded): works at or working at, \s+, then
the capture with an any-letter first character. -/
def companyBody3 (s : Str) : Option Str :=
  if strStartsWithCI s (strLit "works at") then
    plusGreedyCls wsChar (companyCapture letterAZ) (s.drop 8)
  else if strStartsWithCI s (strLit "working at") then
    plusGreedyCls wsChar (companyCapture letterAZ) (s.drop 10)
  else none

/-- Unanchored leftmost search of a pattern starting with (?:^|\s): at each
position try the caret alternative (only at the true start), then the
whitespace alternative, then move one position right. -/
def searchGuarded (body : Str → Option Str) : Bool → Str → Option Str
  | atStart, [] => if atStart then body [] else none
  | atStart, c :: rest =>
    match (if atStart then body (c :: rest) else none) with
    | some r => some r
    | none =>
      match (if wsChar c then body rest else none) with
      | some r => some r
      | none => searchGuarded body false rest

/-- Unanchored leftmost search of an unguarded pattern. -/
def searchBody (body : Str → Option Str) : Str → Option Str
  | [] => body []
  | c :: rest =>
    match body (c :: rest) with
    | some r => some r
    | none => searchBody body rest

/-- extractCompanyFromSnippet of src/src/parser.ts lines 148-168: ordered
heuristic patterns, first match wins, sentinel Unknown otherwise. -/
def extractCompanyFromSnippet (snippet : Str) : Str :=
  if snippet.isEmpty then strLit "Unknown"
  else
    match searchGuarded companyBody1 true snippet with
    | some cap => cleanText cap
    | none =>
      match searchGuarded companyBody2 true snippet with
      | some cap => cleanText cap
      | none =>
        match searchBody companyBody3 snippet with
        | some cap => cleanText cap
        | none => strLit "Unknown"

/-- Does \s*\|.*$ match exactly at the current position? -/
def pipeTailHere (s : Str) : Bool :=
  (starCls wsChar (fun r =>
    match r with
    | c :: r2 => if c == '|' then (if r2.all dotChar then some () else none) else none
    | [] => none) s).isSome

/-- companyPart.replace(/\s*\|.*$/, '') of src/src/parser.ts line 62: drop
everything from the leftmost match of \s*\|.*$ on. -/
def stripPipeTail : Str → Str
  | [] => []
  | c :: rest => if pipeTailHere (c :: rest) then [] else c :: stripPipeTail rest

/-- Confidence tier of a Lead. -/
inductive Confidence where
  | high
  | medium
  | low
deriving DecidableEq

/-- One entry of the pagemap image arrays; only the src field is read. -/
structure CseImage where
  src : Str
deriving DecidableEq

/-- The pagemap data of a Google search result item. -/
structure Pagemap where
  cse_thumbnail : Option (List CseImage)
  cse_image : Option (List CseImage)
deriving DecidableEq

/-- A raw search-result item (types.ts GoogleSearchItem; fields the parser
reads). -/
structure GoogleSearchItem where
  title : Str
  link : Str
  snippet : Str
  htmlSnippet : Option Str
  pagemap : Option Pagemap
deriving DecidableEq

/-- A structured lead record (types.ts Lead, the shape built by
src/src/parser.ts). -/
structure Lead where
  name : Str
  role : Str
  company : Str
  linkedinUrl : Str
  snippet : Str
  htmlSnippet : Str
  imageUrl : Option Str
  confidence : Confidence
  matchedTopics : List Str
  queryUsed : Str
  discoveredAt : Str
deriving DecidableEq

/-- JavaScript a || b for strings: the empty string is falsy. -/
def jsOr (a b : Str) : Str := if a.isEmpty then b else a

/-- JavaScript a || b where a may be undefined. -/
def jsOrOpt (a : Option Str) (b : Str) : Str :=
  match a with
  | some s => if s.isEmpty then b else s
  | none => b

/-- First image of an optional pagemap array whose src is truthy. -/
def imageFromList (l : Option (List CseImage)) : Option Str :=
  match l with
  | some (img :: _) => if img.src.isEmpty then none else some img.src
  | _ => none

/-- extractImageUrl of src/src/parser.ts lines 12-24: thumbnail first, then
cse_image, else null. -/
def extractImageUrl (item : GoogleSearchItem) : Option Str :=
  match item.pagemap with
  | none => none
  | some pm =>
    match imageFromList pm.cse_thumbnail with
    | some s => some s
    | none => imageFromList pm.cse_image

/-- The profile-path marker required of every lead link. -/
def profileMarker : Str := strLit "linkedin.com/in/"

/-- parseSearchResult of src/src/parser.ts lines 37-102: reject non-profile
links, compute matched topics over title plus snippet, then try the primary
and fallback title patterns.  The capture timestamp is threaded as `now`. -/
def parseSearchResult (item : GoogleSearchItem) (queryUsed : Str) (topics : List Str)
    (now : Str) : Option Lead :=
  if strIncludes item.link profileMarker then
    let imageUrl := extractImageUrl item
    let searchText := item.title ++ ' ' :: jsOr item.snippet []
    let matchedTopics := findMatchedTopicsSubstr searchText topics
    match matchPrimary item.title with
    | some (nm, rl, companyPart) =>
      let company := trimWs (stripPipeTail companyPart)
      some {
        name := cleanText nm
        role := cleanText rl
        company := cleanText company
        linkedinUrl := item.link
        snippet := jsOr item.snippet []
        htmlSnippet := jsOrOpt item.htmlSnippet (jsOr item.snippet [])
        imageUrl := imageUrl
        confidence := if detectTruncation item.title then Confidence.low else Confidence.high
        matchedTopics := matchedTopics
        queryUsed := queryUsed
        discoveredAt := now }
    | none =>
      match matchFallback item.title with
      | some (nm, rl) =>
        some {
          name := cleanText nm
          role := cleanText rl
          company := extractCompanyFromSnippet item.snippet
          linkedinUrl := item.link
          snippet := jsOr item.snippet []
          htmlSnippet := jsOrOpt item.htmlSnippet (jsOr item.snippet [])
          imageUrl := imageUrl
          confidence := Confidence.medium
          matchedTopics := matchedTopics
          queryUsed := queryUsed
          discoveredAt := now }
      | none => none
  else none

/-- Options of parseSearchResults (src/src/parser.ts lines 107-111). -/
structure ParseOptions where
  queryUsed : Str
  topics : List Str
  requireTopicMatch : Bool
deriving DecidableEq

/-- parseSearchResults of src/src/parser.ts lines 117-136: parse each item,
optionally dropping leads with no matched topic. -/
def parseSearchResults (items : List GoogleSearchItem) (opts : ParseOptions) (now : Str) :
    List Lead :=
  match items with
  | [] => []
  | item :: rest =>
    match parseSearchResult item opts.queryUsed opts.topics now with
    | some lead =>
      if opts.requireTopicMatch && lead.matchedTopics.isEmpty then
        parseSearchResults rest opts now
      else
        lead :: parseSearchResults rest opts now
    | none => parseSearchResults rest opts now

/-- The matchedTopics set the capability-complete parser
(src/unnamed/part_001 lines 105-108) computes for an item: the
word-boundary findMatchedTopics over the combined title plus snippet text. -/
def matchedTopicsOfItem (item : GoogleSearchItem) (topics : List Str) : List Str :=
  findMatchedTopics (item.title ++ ' ' :: jsOr item.snippet []) topics

/-- Options of buildQuery (src/src/google-search.ts lines 41-45); each field
may be absent, as in the TypeScript optional fields. -/
structure BuildQueryOptions where
  company : Option Str
  topics : Option (List Str)
  exclusions : Option (List Str)
deriving DecidableEq

/-- Join a list of strings with a separator (Array.prototype.join). -/
def joinWith (sep : Str) : List Str → Str
  | [] => []
  | [x] => x
  | x :: y :: rest => x ++ sep ++ joinWith sep (y :: rest)

/-- Wrap a string in double quotes (exact-phrase quoting). -/
def quoteStr (s : Str) : Str := '"' :: (s ++ ['"'])

/-- The parenthesized OR-disjunction of quoted topics. -/
def topicClause (ts : List Str) : Str :=
  '(' :: (joinWith (strLit " OR ") (ts.map quoteStr) ++ [')'])

/-- buildQuery of src/src/google-search.ts lines 41-67 (identical in
src/unnamed/part_005): fixed site clause, then the topic disjunction when
topics is present and non-empty, then the quoted company when truthy, then
the exclusions verbatim, joined by single spaces. -/
def buildQuery (o : BuildQueryOptions) : Str :=
  let parts : List Str := [strLit "site:linkedin.com/in"]
  let parts := match o.topics with
    | some ts => if ts.isEmpty then parts else parts ++ [topicClause ts]
    | none => parts
  let parts := match o.company with
    | some c => if c.isEmpty then parts else parts ++ [quoteStr c]
    | none => parts
  let parts := match o.exclusions with
    | some es => if es.isEmpty then parts else parts ++ es
    | none => parts
  joinWith [' '] parts

/-- Outcome of one external search invocation: the collaborator either
returns items or throws with a stringified error message. -/
inductive SearchOutcome where
  | ok (items : List GoogleSearchItem)
  | err (msg : Str)
deriving DecidableEq

/-- Is the outcome a success? -/
def isOk : SearchOutcome → Bool
  | .ok _ => true
  | .err _ => false

/-- The fatal-error classification of the orchestrator catch block
(src/src/index.ts lines 169-174): a daily-quota condition detected by
substring matching stops the run. -/
def isFatalMsg (msg : Str) : Bool :=
  strIncludes msg (strLit "429") || strIncludes msg (strLit "quota")

/-- One query of the generated batch (types.ts QueryBatch). -/
structure QueryBatch where
  query : Str
  company : Str
deriving DecidableEq

/-- The mutable state threaded through the orchestrator query loop:
the executed-query set, the seen-URL set and the new-lead accumulator. -/
structure RunState where
  executed : List Str
  urls : List Str
  newLeads : List Lead
deriving DecidableEq

/-- Set.add on the executed-query set: append if not yet present. -/
def addExecuted (ex : List Str) (q : Str) : List Str :=
  if q ∈ ex then ex else ex ++ [q]

/-- The per-lead deduplication loop of src/src/index.ts lines 149-157: a
lead whose URL is already seen is dropped, otherwise it is appended and its
URL recorded. -/
def processLeads : List Lead → RunState → RunState
  | [], st => st
  | l :: rest, st =>
    if l.linkedinUrl ∈ st.urls then
      processLeads rest st
    else
      processLeads rest ⟨st.executed, st.urls ++ [l.linkedinUrl], st.newLeads ++ [l]⟩

/-- The orchestrator query loop of src/src/index.ts lines 126-181: for each
query, invoke the search collaborator; on success parse with strict topic
filtering, deduplicate, and mark the query executed; on failure mark
nothing, stopping the loop when the message is classified fatal. -/
def runQueries (searchFn : Str → SearchOutcome) (topics : List Str) (now : Str) :
    List QueryBatch → RunState → RunState
  | [], st => st
  | qb :: rest, st =>
    match searchFn qb.query with
    | .ok items =>
      let leads := parseSearchResults items ⟨qb.query, topics, true⟩ now
      let st2 := processLeads leads st
      runQueries searchFn topics now rest ⟨addExecuted st2.executed qb.query, st2.urls, st2.newLeads⟩
    | .err msg =>
      if isFatalMsg msg then st else runQueries searchFn topics now rest st

/-- Query variant 1 of a company (src/src/index.ts lines 87-91): the first
three topics. -/
def q1Of (topics exclusions : List Str) (c : Str) : Str :=
  buildQuery ⟨some c, some (topics.take 3), some exclusions⟩

/-- Query variant 2 of a company (src/src/index.ts lines 98-102): the
remaining topics. -/
def q2Of (topics exclusions : List Str) (c : Str) : Str :=
  buildQuery ⟨some c, some (topics.drop 3), some exclusions⟩

/-- Query generation of src/src/index.ts lines 82-107: for each company the
two variants, keeping those not yet in the executed-query ledger. -/
def generateQueries (topics exclusions executed : List Str) : List Str → List QueryBatch
  | [] => []
  | c :: rest =>
    (if q1Of topics exclusions c ∈ executed then [] else [⟨q1Of topics exclusions c, c⟩])
    ++ (if q2Of topics exclusions c ∈ executed then [] else [⟨q2Of topics exclusions c, c⟩])
    ++ generateQueries topics exclusions executed rest

/-- MAX_QUERIES_PER_RUN of src/src/index.ts line 9. -/
def maxQueriesPerRun : Nat := 20

/-- What one orchestrator run leaves behind: the persisted lead collection,
the persisted executed-query ledger, and the log of external search
invocations actually issued. -/
structure RunResult where
  leads : List Lead
  executed : List Str
  issued : List Str
deriving DecidableEq

/-- The queries the loop actually sends to the search collaborator, in
order; a fatal failure stops after the failing query. -/
def issuedQueries (searchFn : Str → SearchOutcome) : List QueryBatch → List Str
  | [] => []
  | qb :: rest =>
    qb.query :: (match searchFn qb.query with
    | .ok _ => issuedQueries searchFn rest
    | .err msg => if isFatalMsg msg then [] else issuedQueries searchFn rest)

/-- main of src/src/index.ts, from configuration load to persistence: load
state, generate and cap the query batch, return early (leaving both files
untouched) when nothing is left to run, otherwise run the loop and persist
the merged collection and the ledger. -/
def runMain (companies topics exclusions : List Str) (existingLeads : List Lead)
    (executed0 : List Str) (searchFn : Str → SearchOutcome) (now : Str) : RunResult :=
  let existingUrls := existingLeads.map Lead.linkedinUrl
  let queries := generateQueries topics exclusions executed0 companies
  let queriesToRun := queries.take maxQueriesPerRun
  if queriesToRun.isEmpty then
    ⟨existingLeads, executed0, []⟩
  else
    let final := runQueries searchFn topics now queriesToRun ⟨executed0, existingUrls, []⟩
    ⟨existingLeads ++ final.newLeads, final.executed, issuedQueries searchFn queriesToRun⟩

/-- Observer: the flat, in-order sequence of parsed and topic-filtered leads
the deduplication loop is offered during a run (truncated by a fatal
failure). -/
def sightings (searchFn : Str → SearchOutcome) (topics : List Str) (now : Str) :
    List QueryBatch → List Lead
  | [] => []
  | qb :: rest =>
    match searchFn qb.query with
    | .ok items =>
      parseSearchResults items ⟨qb.query, topics, true⟩ now ++ sightings searchFn topics now rest
    | .err msg => if isFatalMsg msg then [] else sightings searchFn topics now rest

/-- Observer: first-seen-wins selection from a sequence of leads, given the
already-seen URL set: the first sighting of each unseen URL is kept, every
later sighting is dropped. -/
def firstSightings (seen : List Str) : List Lead → List Lead
  | [] => []
  | l :: rest =>
    if l.linkedinUrl ∈ seen then
      firstSightings seen rest
    else
      l :: firstSightings (seen ++ [l.linkedinUrl]) rest

/-- Re-validation of one lead by the maintenance pass of
src/src/cleanup-leads.ts lines 52-66: recompute matchedTopics with the
word-boundary rule over role plus snippet, overwrite it, and derive the
hasTopicMatch flag (returned as the Boolean component). -/
def revalidateLead (topics : List Str) (l : Lead) : Lead × Bool :=
  let searchText := l.role ++ ' ' :: l.snippet
  let m := findMatchedTopics searchText topics
  ({ l with matchedTopics := m }, !m.isEmpty)

/-- The maintenance pass of src/src/cleanup-leads.ts: every lead is
re-validated and written back to the primary collection; none is removed. -/
def cleanupRun (topics : List Str) (leads : List Lead) : List (Lead × Bool) :=
  leads.map (revalidateLead topics)

/-- The superseded cleanup variant of src/unnamed/part_000 lines 40-84:
substring topic matching over role plus snippet; leads with a non-empty
recomputed set are kept (matchedTopics overwritten), the others are moved
to the removed side-collection.  Returns (kept, removed). -/
def cleanupV1Run (topics : List Str) : List Lead → List Lead × List Lead
  | [] => ([], [])
  | l :: rest =>
    let m := findMatchedTopicsSubstr (l.role ++ ' ' :: l.snippet) topics
    let (valid, removed) := cleanupV1Run topics rest
    if m.isEmpty then (valid, l :: removed) else ({ l with matchedTopics := m } :: valid, removed)

/-- Concrete item of the truncated-title scenario (claim C6). -/
def janeItem : GoogleSearchItem :=
  { title := strLit "Jane Doe - Senior Director of Agentic AI Platf... | LinkedIn"
    link := strLit "https://www.linkedin.com/in/janedoe"
    snippet := strLit ""
    htmlSnippet := none
    pagemap := none }

/-- Concrete item of the fallback-pattern scenario (claim C7). -/
def bobItem : GoogleSearchItem :=
  { title := strLit "Bob Wilson - AI Engineer | LinkedIn"
    link := strLit "https://www.linkedin.com/in/bobwilson"
    snippet := strLit "Working at Google on agents..."
    htmlSnippet := none
    pagemap := none }

/-- Concrete item whose link is a company page, not a profile page. -/
def companyItem : GoogleSearchItem :=
  { title := strLit "Bob Wilson - AI Engineer | LinkedIn"
    link := strLit "https://www.linkedin.com/company/google"
    snippet := strLit "Working at Google on agents..."
    htmlSnippet := none
    pagemap := none }

/-- Concrete item matching the primary title pattern. -/
def johnItem : GoogleSearchItem :=
  { title := strLit "John Smith - Head of Agentic AI - Microsoft | LinkedIn"
    link := strLit "https://www.linkedin.com/in/johnsmith"
    snippet := strLit "Head of Agentic AI at Microsoft. Building autonomous systems."
    htmlSnippet := none
    pagemap := none }

/-- Concrete lead whose role and snippet mention no topic as a whole word
(reagents contains agent only as an infix). -/
def chefLead : Lead :=
  { name := strLit "Alice Baker"
    role := strLit "Chef"
    company := strLit "Acme"
    linkedinUrl := strLit "https://www.linkedin.com/in/alicebaker"
    snippet := strLit "works with reagents daily"
    htmlSnippet := strLit ""
    imageUrl := none
    confidence := Confidence.medium
    matchedTopics := [strLit "Agent"]
    queryUsed := strLit "q"
    discoveredAt := strLit "t" }

/-- Concrete lead whose role mentions the topic Agent as a whole word. -/
def agentLead : Lead :=
  { name := strLit "Carol Doe"
    role := strLit "AI Agent Engineer"
    company := strLit "Acme"
    linkedinUrl := strLit "https://www.linkedin.com/in/caroldoe"
    snippet := strLit "builds agents"
    htmlSnippet := strLit ""
    imageUrl := none
    confidence := Confidence.high
    matchedTopics := []
    queryUsed := strLit "q"
    discoveredAt := strLit "t" }

/-- A search collaborator that always fails with a generic transport error. -/
def failConnFn : Str → SearchOutcome := fun _ => SearchOutcome.err (strLit "ECONNRESET")

/-- A search collaborator failing generically on the query q1 and succeeding
with no items otherwise. -/
def mixedFn : Str → SearchOutcome := fun q =>
  if q = strLit "q1" then SearchOutcome.err (strLit "socket hang up") else SearchOutcome.ok []

/-- A search collaborator that always succeeds with no items. -/
def emptyOkFn : Str → SearchOutcome := fun _ => SearchOutcome.ok []

/-- A search collaborator that returns the same profile item for every
query. -/
def johnFn : Str → SearchOutcome := fun _ => SearchOutcome.ok [johnItem]

/-- Two concrete query batches. -/
def qbA : QueryBatch := ⟨strLit "qa", strLit "Microsoft"⟩

/-- Second concrete query batch. -/
def qbB : QueryBatch := ⟨strLit "qb", strLit "Microsoft"⟩

theorem strStartsWith_iff (k : Str) : ∀ s : Str, strStartsWith s k = true ↔ ∃ t, s = k ++ t := by
  induction k with
  | nil =>
    intro s
    simp [strStartsWith]
  | cons d k ih =>
    intro s
    cases s with
    | nil => simp [strStartsWith]
    | cons c s' =>
      simp [strStartsWith, Bool.and_eq_true, beq_iff_eq, ih]

theorem lastFrom_nil (prev : Option Char) : lastFrom prev [] = prev := rfl

theorem getLast?_cons_some (x : Char) (xs : Str) : ∃ y, (x :: xs).getLast? = some y := by
  induction xs generalizing x with
  | nil => exact ⟨x, by simp⟩
  | cons y ys ih =>
    obtain ⟨z, hz⟩ := ih y
    exact ⟨z, by rw [List.getLast?_cons_cons]; exact hz⟩

theorem lastFrom_cons (prev : Option Char) (c : Char) (l : Str) :
    lastFrom prev (c :: l) = lastFrom (some c) l := by
  cases l with
  | nil => simp [lastFrom]
  | cons x xs =>
    obtain ⟨y, h⟩ := getLast?_cons_some x xs
    simp [lastFrom, List.getLast?_cons_cons, h]

theorem lastFrom_append (prev : Option Char) (a b : Str) :
    lastFrom prev (a ++ b) = lastFrom (lastFrom prev a) b := by
  induction a generalizing prev with
  | nil => simp [lastFrom]
  | cons c a' ih => rw [List.cons_append, lastFrom_cons, ih, lastFrom_cons]

theorem lastFrom_none (l : Str) : lastFrom none l = l.getLast? := by
  unfold lastFrom
  cases l.getLast? <;> rfl

theorem getLast?_append_ctx (a b : Str) : lastFrom a.getLast? b = (a ++ b).getLast? := by
  rw [← lastFrom_none a, ← lastFrom_append, lastFrom_none]

theorem wbHere_iff (k : Str) (prev : Option Char) (rest : Str) :
    wbHere k prev rest = true ↔
      ∃ suf, rest = k ++ suf ∧ boundary prev ((k ++ suf).head?) = true ∧
        boundary (lastFrom prev k) suf.head? = true := by
  unfold wbHere
  rw [Bool.and_eq_true, Bool.and_eq_true, strStartsWith_iff]
  constructor
  · rintro ⟨⟨⟨t, ht⟩, hb1⟩, hb2⟩
    subst ht
    refine ⟨t, rfl, hb1, ?_⟩
    rwa [List.drop_left] at hb2
  · rintro ⟨suf, hs, hb1, hb2⟩
    subst hs
    exact ⟨⟨⟨suf, rfl⟩, hb1⟩, by rwa [List.drop_left]⟩

theorem wbSearch_iff (k : Str) : ∀ (s : Str) (prev : Option Char),
    wbSearch k prev s = true ↔
      ∃ pre suf, s = pre ++ k ++ suf ∧
        boundary (lastFrom prev pre) ((k ++ suf).head?) = true ∧
        boundary (lastFrom (lastFrom prev pre) k) suf.head? = true := by
  intro s
  induction s with
  | nil =>
    intro prev
    show wbHere k prev [] = true ↔ _
    rw [wbHere_iff]
    constructor
    · rintro ⟨suf, hs, hb1, hb2⟩
      obtain ⟨hk, hsuf⟩ := List.append_eq_nil.mp hs.symm
      subst hk
      subst hsuf
      exact ⟨[], [], rfl, hb1, hb2⟩
    · rintro ⟨pre, suf, hs, hb1, hb2⟩
      rw [List.append_assoc] at hs
      obtain ⟨hpre, hks⟩ := List.append_eq_nil.mp hs.symm
      obtain ⟨hk, hsuf⟩ := List.append_eq_nil.mp hks
      subst hpre
      subst hk
      subst hsuf
      exact ⟨[], rfl, hb1, hb2⟩
  | cons c rest ih =>
    intro prev
    show (wbHere k prev (c :: rest) || wbSearch k (some c) rest) = true ↔ _
    rw [Bool.or_eq_true, wbHere_iff, ih]
    constructor
    · rintro (⟨suf, hs, hb1, hb2⟩ | ⟨pre, suf, hs, hb1, hb2⟩)
      · exact ⟨[], suf, by simpa using hs, by simpa [lastFrom_nil] using hb1,
          by simpa [lastFrom_nil] using hb2⟩
      · refine ⟨c :: pre, suf, by simp [hs], ?_, ?_⟩
        · rwa [lastFrom_cons]
        · rwa [lastFrom_cons]
    · rintro ⟨pre, suf, hs, hb1, hb2⟩
      cases pre with
      | nil =>
        left
        exact ⟨suf, by simpa using hs, by simpa [lastFrom_nil] using hb1,
          by simpa [lastFrom_nil] using hb2⟩
      | cons c' pre' =>
        right
        rw [List.cons_append, List.cons_append] at hs
        injection hs with hc hr
        subst hc
        exact ⟨pre', suf, hr, by rwa [lastFrom_cons] at hb1, by rwa [lastFrom_cons] at hb2⟩

theorem occursWholeWord_iff_test (keyword text : Str) :
    occursWholeWord keyword text ↔ regexTestWB (lowerStr keyword) (lowerStr text) = true := by
  show _ ↔ wbSearch (lowerStr keyword) none (lowerStr text) = true
  rw [wbSearch_iff]
  unfold occursWholeWord
  apply exists_congr
  intro pre
  apply exists_congr
  intro suf
  rw [lastFrom_none, getLast?_append_ctx]

theorem findMatchedTopics_mem (text : Str) (topics : List Str) (topic : Str) :
    topic ∈ findMatchedTopics text topics ↔ topic ∈ topics ∧ occursWholeWord topic text := by
  rw [show findMatchedTopics text topics =
    topics.filter (fun t => regexTestWB (lowerStr t) (lowerStr text)) from rfl]
  rw [List.mem_filter, occursWholeWord_iff_test]

/-- C1: for every search-result item and topic list, the matchedTopics set
the capability-complete parser computes over the combined title plus
snippet text contains a keyword exactly when the keyword occurs in that
text as a case-insensitive, word-boundary-delimited whole word/phrase; in
particular the keyword Agent does not match inside reagents but does match
in an AI Agent role. -/
theorem c1_matched_topics_whole_word :
    (∀ (item : GoogleSearchItem) (topics : List Str) (topic : Str),
      topic ∈ matchedTopicsOfItem item topics ↔
        topic ∈ topics ∧ occursWholeWord topic (item.title ++ ' ' :: jsOr item.snippet []))
    ∧ findMatchedTopics (strLit "...works with reagents daily...") [strLit "Agent"] = []
    ∧ findMatchedTopics (strLit "...an AI Agent role...") [strLit "Agent"]
        = [strLit "Agent"] := by
  refine ⟨?_, by decide, by decide⟩
  intro item topics topic
  exact findMatchedTopics_mem _ topics topic

/-- C9: an item whose link does not contain the profile-path marker is
rejected by parseSearchResult for any title and snippet content. -/
theorem c9_nonprofile_link_rejected (item : GoogleSearchItem) (queryUsed : Str)
    (topics : List Str) (now : Str)
    (h : strIncludes item.link profileMarker = false) :
    parseSearchResult item queryUsed topics now = none := by
  simp [parseSearchResult, h]

theorem c9_witness : parseSearchResult companyItem (strLit "q") [] (strLit "t") = none :=
  c9_nonprofile_link_rejected companyItem (strLit "q") [] (strLit "t") (by decide)

/-- C8: a title matching the fallback pattern but not the primary pattern
always yields confidence medium, whatever the title (in particular whether
or not it contains a truncation marker), for any accepted item. -/
theorem c8_fallback_always_medium (item : GoogleSearchItem) (queryUsed : Str)
    (topics : List Str) (now : Str) (nm rl : Str)
    (hlink : strIncludes item.link profileMarker = true)
    (hp : matchPrimary item.title = none)
    (hf : matchFallback item.title = some (nm, rl)) :
    (parseSearchResult item queryUsed topics now).map Lead.confidence
      = some Confidence.medium := by
  simp [parseSearchResult, hlink, hp, hf]

theorem c8_witness :
    (parseSearchResult bobItem (strLit "q") [] (strLit "t")).map Lead.confidence
      = some Confidence.medium :=
  c8_fallback_always_medium bobItem (strLit "q") [] (strLit "t")
    (strLit "Bob Wilson") (strLit "AI Engineer") (by decide) (by decide) (by decide)

/-- C10: with no target company (absent or empty), no topics (absent or
empty) and no exclusions (absent or empty), buildQuery returns exactly the
fixed scope-restriction clause. -/
theorem c10_empty_options_site_only (co : Option Str) (ts es : Option (List Str))
    (hco : co = none ∨ co = some []) (hts : ts = none ∨ ts = some [])
    (hes : es = none ∨ es = some []) :
    buildQuery ⟨co, ts, es⟩ = strLit "site:linkedin.com/in" := by
  rcases hco with h | h <;> rcases hts with h2 | h2 <;> rcases hes with h3 | h3 <;>
    subst h <;> subst h2 <;> subst h3 <;> rfl

theorem c10_witness : buildQuery ⟨none, none, none⟩ = strLit "site:linkedin.com/in" :=
  c10_empty_options_site_only none none none (Or.inl rfl) (Or.inl rfl) (Or.inl rfl)

/-- C6 as stated is false: the truncated Jane Doe title contains a single
field separator, so only the fallback pattern matches and the parsed lead
has confidence medium, not low. -/
theorem c6_counterexample :
    (parseSearchResult janeItem (strLit "q") [] (strLit "t")).map Lead.confidence ≠
      some Confidence.low := by
  decide

/-- C6 amended: the Jane Doe item parses via the fallback pattern to a lead
of confidence medium, even though the title carries a truncation marker
(the truncation downgrade applies only to the primary pattern). -/
theorem c6_truncated_fallback_medium :
    detectTruncation janeItem.title = true
    ∧ (parseSearchResult janeItem (strLit "q") [] (strLit "t")).map Lead.confidence
        = some Confidence.medium := by
  exact ⟨by decide, by decide⟩

/-- C7 as stated is false: the extracted company of the Bob Wilson item is
not the exact string Google. -/
theorem c7_counterexample :
    (parseSearchResult bobItem (strLit "q") [] (strLit "t")).map Lead.company ≠
      some (strLit "Google") := by
  decide

/-- C7 amended: the Bob Wilson item parses via the fallback pattern with
confidence medium, and its company, extracted from the snippet by the
generic at-Company pattern (which precedes the working-at pattern and
captures lazily up to the first terminator punctuation, here the ellipsis
dot), is the string Google on agents. -/
theorem c7_fallback_company_from_snippet :
    (parseSearchResult bobItem (strLit "q") [] (strLit "t")).map Lead.company
        = some (strLit "Google on agents")
    ∧ (parseSearchResult bobItem (strLit "q") [] (strLit "t")).map Lead.confidence
        = some Confidence.medium := by
  exact ⟨by decide, by decide⟩

/-- C5 as stated is false: the maintenance pass keeps a lead whose
recomputed topic set is empty in the primary collection (it is only
flagged, not removed). -/
theorem c5_counterexample :
    (cleanupRun [strLit "Agent"] [chefLead]).map (fun p => p.1.linkedinUrl)
        = [chefLead.linkedinUrl]
    ∧ (cleanupRun [strLit "Agent"] [chefLead]).map (fun p => p.1.matchedTopics) = [[]]
    ∧ (cleanupRun [strLit "Agent"] [chefLead]).map (fun p => p.2) = [false] := by
  exact ⟨by decide, by decide, by decide⟩

/-- C5 amended: the maintenance pass recomputes matchedTopics for every
persisted lead with the same whole-word rule as parsing, applied to the
concatenation of role and snippet, overwrites matchedTopics and derives a
hasTopicMatch flag; every lead is kept in the primary collection (leads
with an empty recomputed set are flagged false, not removed, and there is
no side-collection). -/
theorem c5_revalidation_flags_all (topics : List Str) (leads : List Lead) :
    ((cleanupRun topics leads).map (fun p => p.1.linkedinUrl) = leads.map Lead.linkedinUrl)
    ∧ (∀ p, p ∈ cleanupRun topics leads →
        (p.2 = true ↔ p.1.matchedTopics ≠ [])
        ∧ (∀ t, t ∈ p.1.matchedTopics ↔
            t ∈ topics ∧ occursWholeWord t (p.1.role ++ ' ' :: p.1.snippet))) := by
  constructor
  · simp [cleanupRun, List.map_map, revalidateLead]
  · intro p hp
    obtain ⟨l, hl, rfl⟩ := List.mem_map.mp hp
    constructor
    · simp [revalidateLead, List.isEmpty_iff]
    · intro t
      exact findMatchedTopics_mem _ topics t

theorem c5_witness :
    ((cleanupRun [strLit "Agent"] [agentLead]).map (fun p => p.1.linkedinUrl)
        = [agentLead].map Lead.linkedinUrl)
    ∧ ((revalidateLead [strLit "Agent"] agentLead).2 = true ↔
        (revalidateLead [strLit "Agent"] agentLead).1.matchedTopics ≠ []) :=
  ⟨(c5_revalidation_flags_all [strLit "Agent"] [agentLead]).1,
   ((c5_revalidation_flags_all [strLit "Agent"] [agentLead]).2
      (revalidateLead [strLit "Agent"] agentLead) (by decide)).1⟩

theorem runQueries_nil (f : Str → SearchOutcome) (topics : List Str) (now : Str)
    (st : RunState) : runQueries f topics now [] st = st := rfl

theorem runQueries_cons_ok (f : Str → SearchOutcome) (topics : List Str) (now : Str)
    (qb : QueryBatch) (rest : List QueryBatch) (st : RunState)
    (items : List GoogleSearchItem) (hf : f qb.query = SearchOutcome.ok items) :
    runQueries f topics now (qb :: rest) st =
      runQueries f topics now rest
        ⟨addExecuted (processLeads (parseSearchResults items ⟨qb.query, topics, true⟩ now) st).executed qb.query,
         (processLeads (parseSearchResults items ⟨qb.query, topics, true⟩ now) st).urls,
         (processLeads (parseSearchResults items ⟨qb.query, topics, true⟩ now) st).newLeads⟩ := by
  simp only [runQueries, hf]

theorem runQueries_cons_err (f : Str → SearchOutcome) (topics : List Str) (now : Str)
    (qb : QueryBatch) (rest : List QueryBatch) (st : RunState) (msg : Str)
    (hf : f qb.query = SearchOutcome.err msg) :
    runQueries f topics now (qb :: rest) st =
      (if isFatalMsg msg then st else runQueries f topics now rest st) := by
  simp only [runQueries, hf]

theorem processLeads_executed (leads : List Lead) : ∀ st : RunState,
    (processLeads leads st).executed = st.executed := by
  induction leads with
  | nil => intro st; rfl
  | cons l rest ih =>
    intro st
    unfold processLeads
    split
    · exact ih st
    · exact ih _

theorem mem_addExecuted (ex : List Str) (q q' : Str) (h : q ∈ ex) : q ∈ addExecuted ex q' := by
  unfold addExecuted
  split
  · exact h
  · exact List.mem_append_left _ h

theorem self_mem_addExecuted (ex : List Str) (q : Str) : q ∈ addExecuted ex q := by
  unfold addExecuted
  split
  · assumption
  · exact List.mem_append_right _ (List.mem_singleton.mpr rfl)

theorem not_mem_addExecuted (ex : List Str) (q q' : Str) (h : q ∉ ex) (hne : q ≠ q') :
    q ∉ addExecuted ex q' := by
  unfold addExecuted
  split
  · exact h
  · intro hmem
    rcases List.mem_append.mp hmem with h1 | h1
    · exact h h1
    · exact hne (List.mem_singleton.mp h1)

theorem runQueries_exec_mono (f : Str → SearchOutcome) (topics : List Str) (now : Str) :
    ∀ (qs : List QueryBatch) (st : RunState) (q : Str),
      q ∈ st.executed → q ∈ (runQueries f topics now qs st).executed := by
  intro qs
  induction qs with
  | nil => intro st q h; exact h
  | cons qb rest ih =>
    intro st q h
    cases hf : f qb.query with
    | ok items =>
      rw [runQueries_cons_ok f topics now qb rest st items hf]
      apply ih
      show q ∈ addExecuted (processLeads _ st).executed qb.query
      rw [processLeads_executed]
      exact mem_addExecuted _ _ _ h
    | err msg =>
      rw [runQueries_cons_err f topics now qb rest st msg hf]
      split
      · exact h
      · exact ih st q h

theorem runQueries_exec_marks (f : Str → SearchOutcome) (topics : List Str) (now : Str) :
    ∀ (qs : List QueryBatch) (st : RunState),
      (∀ qb ∈ qs, isOk (f qb.query) = true) →
      ∀ qb ∈ qs, qb.query ∈ (runQueries f topics now qs st).executed := by
  intro qs
  induction qs with
  | nil => intro st _ qb h; exact absurd h (List.not_mem_nil qb)
  | cons qb0 rest ih =>
    intro st hok qb hmem
    cases hf : f qb0.query with
    | err msg =>
      have := hok qb0 (List.mem_cons_self qb0 rest)
      rw [hf] at this
      exact absurd this (by simp [isOk])
    | ok items =>
      rw [runQueries_cons_ok f topics now qb0 rest st items hf]
      rcases List.mem_cons.mp hmem with h | h
      · subst h
        apply runQueries_exec_mono
        show qb.query ∈ addExecuted (processLeads _ st).executed qb.query
        rw [processLeads_executed]
        exact self_mem_addExecuted _ _
      · exact ih _ (fun b hb => hok b (List.mem_cons_of_mem qb0 hb)) qb h

theorem runQueries_exec_not_added (f : Str → SearchOutcome) (topics : List Str) (now : Str)
    (q : Str) : ∀ (qs : List QueryBatch) (st : RunState),
      q ∉ st.executed → (∀ qb ∈ qs, qb.query ≠ q) →
      q ∉ (runQueries f topics now qs st).executed := by
  intro qs
  induction qs with
  | nil => intro st h _; exact h
  | cons qb0 rest ih =>
    intro st h hfresh
    cases hf : f qb0.query with
    | ok items =>
      rw [runQueries_cons_ok f topics now qb0 rest st items hf]
      apply ih
      · show q ∉ addExecuted (processLeads _ st).executed qb0.query
        rw [processLeads_executed]
        exact not_mem_addExecuted _ _ _ h
          (fun he => hfresh qb0 (List.mem_cons_self qb0 rest) he.symm)
      · exact fun b hb => hfresh b (List.mem_cons_of_mem qb0 hb)
    | err msg =>
      rw [runQueries_cons_err f topics now qb0 rest st msg hf]
      split
      · exact h
      · exact ih st h (fun b hb => hfresh b (List.mem_cons_of_mem qb0 hb))

/-- C2 as stated is false: in a run where every search invocation fails
with a generic transport error (not a quota condition), both generated
queries are issued and the run continues past the first failure, yet the
executed-query ledger persisted at run end is empty — the failed queries
are not marked executed. -/
theorem c2_counterexample :
    isFatalMsg (strLit "ECONNRESET") = false
    ∧ (runMain [strLit "Acme"] [strLit "Agentic AI"] [] [] [] failConnFn
        (strLit "t")).issued.length = 2
    ∧ (runMain [strLit "Acme"] [strLit "Agentic AI"] [] [] [] failConnFn
        (strLit "t")).executed = [] := by
  exact ⟨by decide, by decide, by decide⟩

/-- C2 amended: when a query fails with a generic (non-fatal) transport
error, the loop state is unchanged and the run continues with the
remaining queries; in particular, if the failed query was not already in
the ledger and does not recur later in the batch, it is absent from the
executed-query ledger at run end. -/
theorem c2_failed_query_not_marked (f : Str → SearchOutcome) (topics : List Str)
    (now msg : Str) (qb : QueryBatch) (rest : List QueryBatch) (st : RunState)
    (herr : f qb.query = SearchOutcome.err msg)
    (hgeneric : isFatalMsg msg = false)
    (hnotin : qb.query ∉ st.executed)
    (hfresh : ∀ qb2 ∈ rest, qb2.query ≠ qb.query) :
    runQueries f topics now (qb :: rest) st = runQueries f topics now rest st
    ∧ qb.query ∉ (runQueries f topics now (qb :: rest) st).executed := by
  have hstep : runQueries f topics now (qb :: rest) st = runQueries f topics now rest st := by
    rw [runQueries_cons_err f topics now qb rest st msg herr, hgeneric]
    rfl
  refine ⟨hstep, ?_⟩
  rw [hstep]
  exact runQueries_exec_not_added f topics now qb.query rest st hnotin hfresh

theorem c2_witness :
    runQueries mixedFn [] (strLit "t") [⟨strLit "q1", strLit "Acme"⟩, ⟨strLit "q2", strLit "Acme"⟩]
        ⟨[], [], []⟩
      = runQueries mixedFn [] (strLit "t") [⟨strLit "q2", strLit "Acme"⟩] ⟨[], [], []⟩
    ∧ strLit "q1" ∉ (runQueries mixedFn [] (strLit "t")
        [⟨strLit "q1", strLit "Acme"⟩, ⟨strLit "q2", strLit "Acme"⟩] ⟨[], [], []⟩).executed :=
  c2_failed_query_not_marked mixedFn [] (strLit "t") (strLit "socket hang up")
    ⟨strLit "q1", strLit "Acme"⟩ [⟨strLit "q2", strLit "Acme"⟩] ⟨[], [], []⟩
    (by decide) (by decide) (by decide) (by decide)

theorem gen_mem_q1 (topics exclusions executed : List Str) :
    ∀ (companies : List Str) (c : Str), c ∈ companies →
      q1Of topics exclusions c ∉ executed →
      QueryBatch.mk (q1Of topics exclusions c) c ∈
        generateQueries topics exclusions executed companies := by
  intro companies
  induction companies with
  | nil => intro c h; exact absurd h (List.not_mem_nil c)
  | cons c0 rest ih =>
    intro c hmem hnot
    unfold generateQueries
    rcases List.mem_cons.mp hmem with h | h
    · subst h
      rw [if_neg hnot]
      exact List.mem_append_left _ (List.mem_append_left _ (List.mem_singleton.mpr rfl))
    · exact List.mem_append_right _ (ih c h hnot)

theorem gen_mem_q2 (topics exclusions executed : List Str) :
    ∀ (companies : List Str) (c : Str), c ∈ companies →
      q2Of topics exclusions c ∉ executed →
      QueryBatch.mk (q2Of topics exclusions c) c ∈
        generateQueries topics exclusions executed companies := by
  intro companies
  induction companies with
  | nil => intro c h; exact absurd h (List.not_mem_nil c)
  | cons c0 rest ih =>
    intro c hmem hnot
    unfold generateQueries
    rcases List.mem_cons.mp hmem with h | h
    · subst h
      rw [if_neg hnot]
      exact List.mem_append_left _ (List.mem_append_right _ (List.mem_singleton.mpr rfl))
    · exact List.mem_append_right _ (ih c h hnot)

theorem gen_nil_of_executed (topics exclusions executed : List Str) :
    ∀ companies : List Str,
      (∀ c ∈ companies,
        q1Of topics exclusions c ∈ executed ∧ q2Of topics exclusions c ∈ executed) →
      generateQueries topics exclusions executed companies = [] := by
  intro companies
  induction companies with
  | nil => intro _; rfl
  | cons c0 rest ih =>
    intro h
    unfold generateQueries
    obtain ⟨h1, h2⟩ := h c0 (List.mem_cons_self c0 rest)
    rw [if_pos h1, if_pos h2, List.nil_append, List.nil_append]
    exact ih (fun c hc => h c (List.mem_cons_of_mem c0 hc))

/-- C3: if the first run executed every generated query within the per-run
budget (each search invocation succeeding), a second run with the persisted
ledger and lead collection issues zero external search queries and leaves
the persisted lead collection unchanged. -/
theorem c3_second_run_idle (companies topics exclusions : List Str) (leads0 : List Lead)
    (executed0 : List Str) (searchFn : Str → SearchOutcome) (now1 now2 : Str)
    (hbudget : (generateQueries topics exclusions executed0 companies).length ≤ maxQueriesPerRun)
    (hok : ∀ qb ∈ generateQueries topics exclusions executed0 companies,
      isOk (searchFn qb.query) = true) :
    (runMain companies topics exclusions
        (runMain companies topics exclusions leads0 executed0 searchFn now1).leads
        (runMain companies topics exclusions leads0 executed0 searchFn now1).executed
        searchFn now2).issued = []
    ∧ (runMain companies topics exclusions
        (runMain companies topics exclusions leads0 executed0 searchFn now1).leads
        (runMain companies topics exclusions leads0 executed0 searchFn now1).executed
        searchFn now2).leads
      = (runMain companies topics exclusions leads0 executed0 searchFn now1).leads := by
  have htake : (generateQueries topics exclusions executed0 companies).take maxQueriesPerRun
      = generateQueries topics exclusions executed0 companies := List.take_of_length_le hbudget
  by_cases hnil : generateQueries topics exclusions executed0 companies = []
  · have hr1 : runMain companies topics exclusions leads0 executed0 searchFn now1
        = ⟨leads0, executed0, []⟩ := by
      unfold runMain
      rw [hnil]
      rfl
    rw [hr1]
    unfold runMain
    rw [hnil]
    exact ⟨rfl, rfl⟩
  · have hne : ¬((generateQueries topics exclusions executed0 companies).isEmpty = true) :=
      fun h => hnil (List.isEmpty_iff.mp h)
    have hr1 : runMain companies topics exclusions leads0 executed0 searchFn now1
        = ⟨leads0 ++ (runQueries searchFn topics now1
              (generateQueries topics exclusions executed0 companies)
              ⟨executed0, leads0.map Lead.linkedinUrl, []⟩).newLeads,
           (runQueries searchFn topics now1
              (generateQueries topics exclusions executed0 companies)
              ⟨executed0, leads0.map Lead.linkedinUrl, []⟩).executed,
           issuedQueries searchFn (generateQueries topics exclusions executed0 companies)⟩ := by
      simp only [runMain]
      rw [htake, if_neg hne]
    have hexec : ∀ c ∈ companies,
        q1Of topics exclusions c ∈ (runQueries searchFn topics now1
            (generateQueries topics exclusions executed0 companies)
            ⟨executed0, leads0.map Lead.linkedinUrl, []⟩).executed
        ∧ q2Of topics exclusions c ∈ (runQueries searchFn topics now1
            (generateQueries topics exclusions executed0 companies)
            ⟨executed0, leads0.map Lead.linkedinUrl, []⟩).executed := by
      intro c hc
      constructor
      · by_cases h0 : q1Of topics exclusions c ∈ executed0
        · exact runQueries_exec_mono searchFn topics now1 _ _ _ h0
        · exact runQueries_exec_marks searchFn topics now1 _ _ hok _
            (gen_mem_q1 topics exclusions executed0 companies c hc h0)
      · by_cases h0 : q2Of topics exclusions c ∈ executed0
        · exact runQueries_exec_mono searchFn topics now1 _ _ _ h0
        · exact runQueries_exec_marks searchFn topics now1 _ _ hok _
            (gen_mem_q2 topics exclusions executed0 companies c hc h0)
    have hgen2 : generateQueries topics exclusions
        (runQueries searchFn topics now1
          (generateQueries topics exclusions executed0 companies)
          ⟨executed0, leads0.map Lead.linkedinUrl, []⟩).executed companies = [] :=
      gen_nil_of_executed _ _ _ companies hexec
    rw [hr1]
    constructor
    · simp only [runMain]
      rw [hgen2]
      rfl
    · simp only [runMain]
      rw [hgen2]
      rfl

theorem c3_witness :
    (runMain [strLit "Acme"] [strLit "Agentic AI"] []
        (runMain [strLit "Acme"] [strLit "Agentic AI"] [] [] [] emptyOkFn (strLit "t")).leads
        (runMain [strLit "Acme"] [strLit "Agentic AI"] [] [] [] emptyOkFn (strLit "t")).executed
        emptyOkFn (strLit "u")).issued = []
    ∧ (runMain [strLit "Acme"] [strLit "Agentic AI"] []
        (runMain [strLit "Acme"] [strLit "Agentic AI"] [] [] [] emptyOkFn (strLit "t")).leads
        (runMain [strLit "Acme"] [strLit "Agentic AI"] [] [] [] emptyOkFn (strLit "t")).executed
        emptyOkFn (strLit "u")).leads
      = (runMain [strLit "Acme"] [strLit "Agentic AI"] [] [] [] emptyOkFn (strLit "t")).leads :=
  c3_second_run_idle [strLit "Acme"] [strLit "Agentic AI"] [] [] [] emptyOkFn
    (strLit "t") (strLit "u") (by decide) (by decide)

theorem processLeads_eq (leads : List Lead) : ∀ st : RunState,
    processLeads leads st =
      ⟨st.executed,
       st.urls ++ (firstSightings st.urls leads).map Lead.linkedinUrl,
       st.newLeads ++ firstSightings st.urls leads⟩ := by
  induction leads with
  | nil => intro st; simp [processLeads, firstSightings]
  | cons l rest ih =>
    intro st
    by_cases h : l.linkedinUrl ∈ st.urls
    · simp only [processLeads, firstSightings, if_pos h]
      exact ih st
    · simp only [processLeads, firstSightings, if_neg h]
      rw [ih ⟨st.executed, st.urls ++ [l.linkedinUrl], st.newLeads ++ [l]⟩]
      simp [List.append_assoc]

theorem firstSightings_append (b : List Lead) : ∀ (a : List Lead) (seen : List Str),
    firstSightings seen (a ++ b) =
      firstSightings seen a ++
        firstSightings (seen ++ (firstSightings seen a).map Lead.linkedinUrl) b := by
  intro a
  induction a with
  | nil => intro seen; simp [firstSightings]
  | cons l a' ih =>
    intro seen
    by_cases h : l.linkedinUrl ∈ seen
    · simp only [List.cons_append, firstSightings, if_pos h]
      exact ih seen
    · simp only [List.cons_append, firstSightings, if_neg h, List.append_eq]
      rw [ih (seen ++ [l.linkedinUrl])]
      simp [List.append_assoc]

theorem runQueries_chars (f : Str → SearchOutcome) (topics : List Str) (now : Str) :
    ∀ (qs : List QueryBatch) (st : RunState),
      (runQueries f topics now qs st).newLeads
          = st.newLeads ++ firstSightings st.urls (sightings f topics now qs)
      ∧ (runQueries f topics now qs st).urls
          = st.urls ++ (firstSightings st.urls (sightings f topics now qs)).map Lead.linkedinUrl := by
  intro qs
  induction qs with
  | nil => intro st; simp [runQueries, sightings, firstSightings]
  | cons qb rest ih =>
    intro st
    cases hf : f qb.query with
    | ok items =>
      have hs : sightings f topics now (qb :: rest)
          = parseSearchResults items ⟨qb.query, topics, true⟩ now
            ++ sightings f topics now rest := by
        simp only [sightings, hf]
      rw [runQueries_cons_ok f topics now qb rest st items hf, hs]
      obtain ⟨ih1, ih2⟩ := ih
        ⟨addExecuted (processLeads (parseSearchResults items ⟨qb.query, topics, true⟩ now) st).executed qb.query,
         (processLeads (parseSearchResults items ⟨qb.query, topics, true⟩ now) st).urls,
         (processLeads (parseSearchResults items ⟨qb.query, topics, true⟩ now) st).newLeads⟩
      constructor
      · rw [ih1]
        simp only [processLeads_eq]
        rw [firstSightings_append]
        simp [List.append_assoc]
      · rw [ih2]
        simp only [processLeads_eq]
        rw [firstSightings_append]
        simp [List.append_assoc, List.map_append]
    | err msg =>
      have hs : sightings f topics now (qb :: rest)
          = (if isFatalMsg msg then [] else sightings f topics now rest) := by
        simp only [sightings, hf]
      rw [runQueries_cons_err f topics now qb rest st msg hf, hs]
      by_cases hfatal : isFatalMsg msg = true
      · rw [if_pos hfatal, if_pos hfatal]
        simp [firstSightings]
      · rw [if_neg hfatal, if_neg hfatal]
        exact ih st

theorem firstSightings_nodup_fresh : ∀ (ls : List Lead) (seen : List Str),
    ((firstSightings seen ls).map Lead.linkedinUrl).Nodup
    ∧ ∀ l ∈ firstSightings seen ls, l.linkedinUrl ∉ seen := by
  intro ls
  induction ls with
  | nil => intro seen; simp [firstSightings]
  | cons l rest ih =>
    intro seen
    by_cases h : l.linkedinUrl ∈ seen
    · simp only [firstSightings, if_pos h]
      exact ih seen
    · simp only [firstSightings, if_neg h]
      obtain ⟨ihn, ihf⟩ := ih (seen ++ [l.linkedinUrl])
      constructor
      · simp only [List.map_cons, List.nodup_cons]
        constructor
        · intro hmem
          obtain ⟨x, hx, hxu⟩ := List.mem_map.mp hmem
          exact (ihf x hx) (hxu ▸ List.mem_append_right _ (List.mem_singleton.mpr rfl))
        · exact ihn
      · intro x hx
        rcases List.mem_cons.mp hx with hx0 | hx'
        · subst hx0; exact h
        · intro hmem
          exact (ihf x hx') (List.mem_append_left _ hmem)

theorem firstSightings_sub : ∀ (ls : List Lead) (seen : List Str) (l : Lead),
    l ∈ firstSightings seen ls → l ∈ ls := by
  intro ls
  induction ls with
  | nil => intro seen l h; exact absurd h (by simp [firstSightings])
  | cons x rest ih =>
    intro seen l h
    by_cases hx : x.linkedinUrl ∈ seen
    · simp only [firstSightings, if_pos hx] at h
      exact List.mem_cons_of_mem x (ih seen l h)
    · simp only [firstSightings, if_neg hx] at h
      rcases List.mem_cons.mp h with h0 | h'
      · subst h0; exact List.mem_cons_self l rest
      · exact List.mem_cons_of_mem x (ih _ l h')

/-- C4: starting from a persisted collection with unique canonical URLs, a
run preserves uniqueness — the merged collection has pairwise-distinct
linkedinUrl values — and the accumulated new leads are exactly the
first-seen-wins selection from the in-order sequence of parsed sightings
across all queries of the run: the first sighting of each unseen URL is
persisted verbatim and every later sighting of the same URL is dropped. -/
theorem c4_url_unique_first_seen (searchFn : Str → SearchOutcome) (topics : List Str)
    (now : Str) (qs : List QueryBatch) (leads0 : List Lead) (executed0 : List Str)
    (hnodup : (leads0.map Lead.linkedinUrl).Nodup) :
    (((leads0 ++ (runQueries searchFn topics now qs
        ⟨executed0, leads0.map Lead.linkedinUrl, []⟩).newLeads).map Lead.linkedinUrl).Nodup)
    ∧ (runQueries searchFn topics now qs
        ⟨executed0, leads0.map Lead.linkedinUrl, []⟩).newLeads
      = firstSightings (leads0.map Lead.linkedinUrl) (sightings searchFn topics now qs)
    ∧ ∀ l ∈ (runQueries searchFn topics now qs
        ⟨executed0, leads0.map Lead.linkedinUrl, []⟩).newLeads,
        l ∈ sightings searchFn topics now qs := by
  obtain ⟨h1, _⟩ := runQueries_chars searchFn topics now qs
    ⟨executed0, leads0.map Lead.linkedinUrl, []⟩
  have hnew : (runQueries searchFn topics now qs
      ⟨executed0, leads0.map Lead.linkedinUrl, []⟩).newLeads
      = firstSightings (leads0.map Lead.linkedinUrl) (sightings searchFn topics now qs) := by
    simpa using h1
  refine ⟨?_, hnew, ?_⟩
  · rw [List.map_append, List.nodup_append]
    refine ⟨hnodup, ?_, ?_⟩
    · rw [hnew]
      exact (firstSightings_nodup_fresh _ _).1
    · rw [hnew]
      apply List.disjoint_right.mpr
      intro a ha
      obtain ⟨x, hx, hxu⟩ := List.mem_map.mp ha
      exact hxu ▸ (firstSightings_nodup_fresh _ _).2 x hx
  · intro l hl
    rw [hnew] at hl
    exact firstSightings_sub _ _ l hl

theorem c4_witness :
    ((([] ++ (runQueries johnFn [strLit "Agentic AI"] (strLit "t") [qbA, qbB]
        ⟨[], ([] : List Lead).map Lead.linkedinUrl, []⟩).newLeads).map Lead.linkedinUrl).Nodup)
    ∧ (runQueries johnFn [strLit "Agentic AI"] (strLit "t") [qbA, qbB]
        ⟨[], ([] : List Lead).map Lead.linkedinUrl, []⟩).newLeads
      = firstSightings (([] : List Lead).map Lead.linkedinUrl)
          (sightings johnFn [strLit "Agentic AI"] (strLit "t") [qbA, qbB]) :=
  ⟨(c4_url_unique_first_seen johnFn [strLit "Agentic AI"] (strLit "t") [qbA, qbB] [] []
      (by decide)).1,
   (c4_url_unique_first_seen johnFn [strLit "Agentic AI"] (strLit "t") [qbA, qbB] [] []
      (by decide)).2.1⟩

end LeadScout
